import Mathlib

/-!
# Order server example (Go): the `getOrder` quote handler

A shallow embedding of `order-server-examples/golang/main.go`.

* Go strings that reach the handler come out of `encoding/json`, which only
  produces valid UTF-8, so they are modelled as `String`.
* `int` is the 64-bit Go `int`; `strconv.Atoi` range-checks against it.
* `float64` values are modelled exactly, as dyadic numbers `mant * 2 ^ exp`
  with a significand of at most 53 bits; conversion from `int` rounds to
  nearest, ties to even.  Only finite values whose magnitude lies between
  `2 ^ (-1)` and `2 ^ 63` (or zero) arise in the handler, so infinities, NaN
  and subnormals are left out.
* The clock, the random source and the log are threaded through explicitly as
  a `World`; the JSON decoder of the request body is a parameter.
-/

namespace OrderServer

/-! ## Data model -/

/-- GetOrderRequest is an incoming POST request from the client server. -/
structure GetOrderRequest where
  MakerAddress : String
  TakerAddress : String
  MakerToken : String
  TakerToken : String
  TakerAmount : String
  MakerAmount : String
deriving DecidableEq, Repr

/-- GetOrderResponse is an outgoing order to be signed and sent by the client
server.  `Expiration` is an `int64`, `Nonce` a `uint32`. -/
structure GetOrderResponse where
  MakerToken : String
  TakerToken : String
  MakerAmount : String
  TakerAmount : String
  Expiration : Int
  Nonce : Nat
deriving DecidableEq, Repr

/-! ## strconv -/

/-- The two error kinds of `strconv.NumError`. -/
inductive NumError where
  | ErrSyntax
  | ErrRange
deriving DecidableEq, Repr

/-- Largest `uint64`. -/
def maxUint64 : Nat := 2 ^ 64 - 1

/-- The digit loop of `strconv.ParseUint(s, 10, 64)`: `n` is the value read so
far.  A byte that is not a decimal digit is a syntax error; leaving the
`uint64` range is a range error, reported at the digit where it happens. -/
def parseUintLoop : List Char → Nat → Except NumError Nat
  | [], n => .ok n
  | c :: cs, n =>
    if 48 ≤ c.toNat ∧ c.toNat ≤ 57 then
      let d := c.toNat - 48
      if n ≥ maxUint64 / 10 + 1 then .error .ErrRange
      else
        let n1 := n * 10 + d
        if n1 > maxUint64 then .error .ErrRange
        else parseUintLoop cs n1
    else .error .ErrSyntax

/-- Unsigned decimal parse, `strconv.ParseUint(s, 10, 64)`: the empty string is a syntax
error. -/
def ParseUint (s : List Char) : Except NumError Nat :=
  match s with
  | [] => .error .ErrSyntax
  | _ => parseUintLoop s 0

/-- Signed decimal parse, `strconv.ParseInt(s, 10, 0)` on a 64-bit platform: an optional
sign, then `ParseUint`, then the check against the `int64` range. -/
def ParseInt (s : List Char) : Except NumError Int :=
  match s with
  | [] => .error .ErrSyntax
  | c :: cs =>
    let neg := c.toNat = 45
    let rest := if c.toNat = 43 ∨ c.toNat = 45 then cs else c :: cs
    match ParseUint rest with
    | .error .ErrSyntax => .error .ErrSyntax
    | r =>
      let un := match r with
        | .ok v => v
        | .error _ => maxUint64
      let cutoff : Nat := 2 ^ 63
      if ¬ neg ∧ un ≥ cutoff then .error .ErrRange
      else if neg ∧ un > cutoff then .error .ErrRange
      else .ok (if neg then - (un : Int) else (un : Int))

/-- Decimal text to `int`, `strconv.Atoi`: the same result as `ParseInt(s, 10, 0)` (its fast path
for short strings agrees with the general one). -/
def Atoi (s : String) : Except NumError Int :=
  ParseInt s.toList

/-- A decimal digit. -/
def isDecimalDigit (c : Char) : Prop := 48 ≤ c.toNat ∧ c.toNat ≤ 57

/-- The number a digit string denotes, continuing from `n`. -/
def decimalFrom : Nat → List Char → Nat
  | n, [] => n
  | n, c :: cs => decimalFrom (n * 10 + (c.toNat - 48)) cs

/-- The number a digit string denotes. -/
def decimalValue (ds : List Char) : Nat := decimalFrom 0 ds

/-- What `Atoi` is documented to accept, in words: the text `s` is an optional
sign followed by one or more decimal digits, and denotes the integer `M`,
which fits the 64-bit `int`. -/
def SignedDecimal (s : List Char) (M : Int) : Prop :=
  ∃ ds : List Char, ds ≠ [] ∧ (∀ c ∈ ds, isDecimalDigit c) ∧
    ((s = ds ∨ s = '+' :: ds) ∧ M = (decimalValue ds : Int) ∨
      s = '-' :: ds ∧ M = -(decimalValue ds : Int)) ∧
    -(2 ^ 63) ≤ M ∧ M < 2 ^ 63

/-- Signed decimal text, `strconv.Itoa`. -/
def Itoa (i : Int) : String :=
  if i < 0 then "-" ++ Nat.repr i.natAbs else Nat.repr i.natAbs

/-! ## float64 -/

/-- A finite `float64`, the number `mant * 2 ^ exp`. -/
structure Float64 where
  mant : Int
  exp : Int
deriving DecidableEq, Repr

/-- Bit length with explicit fuel. -/
def bitLenAux : Nat → Nat → Nat
  | 0, _ => 0
  | fuel + 1, a => if a = 0 then 0 else bitLenAux fuel (a / 2) + 1

/-- Number of binary digits of `a` (`a` itself is always enough fuel). -/
def bitLen (a : Nat) : Nat := bitLenAux a a

/-- Round the exact value `m * 2 ^ e` to a 53-bit significand, to nearest with
ties to even. -/
def Float64.round (m e : Int) : Float64 :=
  let a := m.natAbs
  if a < 2 ^ 53 then ⟨m, e⟩
  else
    let k := bitLen a - 53
    let q := a / 2 ^ k
    let r := a % 2 ^ k
    let half := 2 ^ (k - 1)
    let q1 := if r > half ∨ (r = half ∧ q % 2 = 1) then q + 1 else q
    ⟨Int.sign m * (q1 : Int), e + (k : Int)⟩

/-- The conversion `float64(n)` of an integer. -/
def Float64.ofInt (n : Int) : Float64 := Float64.round n 0

/-- The product `x * y`: the exact product, rounded. -/
def Float64.mul (x y : Float64) : Float64 :=
  Float64.round (x.mant * y.mant) (x.exp + y.exp)

/-- The conversion `int(x)`: the fraction is discarded (truncation toward
zero).  In the handler the result always fits the `int` (see
`quote_in_int_range`), so no wrap-around is applied. -/
def Float64.toInt (x : Float64) : Int :=
  if 0 ≤ x.exp then x.mant * 2 ^ x.exp.toNat
  else Int.tdiv x.mant (2 ^ (-x.exp).toNat)

/-- The constant `price = 0.5`. -/
def price : Float64 := ⟨1, -1⟩

/-! ## time -/

/-- An instant: Unix seconds and the nanoseconds within the second
(`0 ≤ nsec < 10 ^ 9`).  The seconds of a clock reading are far inside the
`int64` range, so they are kept as an unbounded integer. -/
structure Time where
  sec : Int
  nsec : Int
deriving DecidableEq, Repr

/-- One `time.Minute`, a `Duration` in nanoseconds. -/
def Minute : Int := 60 * 1000000000

/-- The instant `t + d`, `Time.Add`, for a duration `d` in nanoseconds. -/
def Time.Add (t : Time) (d : Int) : Time :=
  let dsec := Int.tdiv d 1000000000
  let nsec := t.nsec + Int.tmod d 1000000000
  if nsec ≥ 1000000000 then ⟨t.sec + (dsec + 1), nsec - 1000000000⟩
  else if nsec < 0 then ⟨t.sec + (dsec - 1), nsec + 1000000000⟩
  else ⟨t.sec + dsec, nsec⟩

/-- Seconds since the epoch, `Time.Unix`. -/
def Time.Unix (t : Time) : Int := t.sec

/-! ## encoding/json (output side) -/

/-- One lower-case hexadecimal digit. -/
def hexDigit (n : Nat) : Char :=
  ("0123456789abcdef".toList).getD n '0'

/-- How `json.Marshal` writes one character of a string: quote and backslash
are backslash-escaped, control characters, `<`, `>` and `&` become `\u00XX`
(with the short forms for backspace, form feed, newline, carriage return and
tab, as current Go releases write them), U+2028 and U+2029 are escaped,
everything else is copied. -/
def jsonEscapeChar (c : Char) : String :=
  let n := c.toNat
  if n = 34 then "\\\""
  else if n = 92 then "\\\\"
  else if n = 8 then "\\b"
  else if n = 12 then "\\f"
  else if n = 10 then "\\n"
  else if n = 13 then "\\r"
  else if n = 9 then "\\t"
  else if n < 32 ∨ n = 60 ∨ n = 62 ∨ n = 38 then
    "\\u00" ++ String.mk [hexDigit (n / 16), hexDigit (n % 16)]
  else if n = 8232 then "\\u2028"
  else if n = 8233 then "\\u2029"
  else String.mk [c]

/-- A JSON string literal. -/
def jsonString (s : String) : String :=
  "\"" ++ String.join (s.toList.map jsonEscapeChar) ++ "\""

/-- The JSON text of a `GetOrderResponse`: the fields in declaration order
under their tags, strings quoted, the two integers in decimal. -/
def jsonObject (o : GetOrderResponse) : String :=
  "\x7b\"makerToken\":" ++ jsonString o.MakerToken
    ++ ",\"takerToken\":" ++ jsonString o.TakerToken
    ++ ",\"makerAmount\":" ++ jsonString o.MakerAmount
    ++ ",\"takerAmount\":" ++ jsonString o.TakerAmount
    ++ ",\"expiration\":" ++ Itoa o.Expiration
    ++ ",\"nonce\":" ++ Nat.repr o.Nonce ++ "\x7d"

/-- The encoder `json.Marshal(order)` for a `GetOrderResponse`: encoding this struct
(strings and integers only) cannot fail. -/
def jsonMarshal (o : GetOrderResponse) : Except String String :=
  .ok (jsonObject o)

/-! ## net/http -/

/-- The method name `http.MethodPost`. -/
def MethodPost : String := "POST"

/-- The status `http.StatusBadRequest`. -/
def StatusBadRequest : Nat := 400

/-- The status `http.StatusInternalServerError`. -/
def StatusInternalServerError : Nat := 500

/-- The status `http.StatusOK`. -/
def StatusOK : Nat := 200

/-- The part of `*http.Request` the handler reads. -/
structure Request where
  Method : String
  Body : List UInt8
deriving DecidableEq, Repr

/-- What the handler has done to its `http.ResponseWriter`: the header map,
the status passed to the first `WriteHeader` (if any), whether the status line
has gone out, and the bytes written. -/
structure ResponseWriter where
  header : List (String × String)
  explicitStatus : Option Nat
  wroteHeader : Bool
  body : String
deriving DecidableEq, Repr

/-- The writer handed to a handler. -/
def ResponseWriter.fresh : ResponseWriter := ⟨[], none, false, ""⟩

/-- Bytes allowed in a header field name (RFC 7230 token characters). -/
def validHeaderFieldByte (c : Char) : Bool :=
  c.isAlphanum || [33, 35, 36, 37, 38, 39, 42, 43, 45, 46, 94, 95, 96, 124, 126].contains c.toNat

/-- The letter-case pass of `textproto.CanonicalMIMEHeaderKey`. -/
def canonicalLoop : Bool → List Char → List Char
  | _, [] => []
  | upper, c :: cs =>
    let c1 :=
      if upper ∧ 97 ≤ c.toNat ∧ c.toNat ≤ 122 then Char.ofNat (c.toNat - 32)
      else if ¬ upper ∧ 65 ≤ c.toNat ∧ c.toNat ≤ 90 then Char.ofNat (c.toNat + 32)
      else c
    c1 :: canonicalLoop (c1.toNat = 45) cs

/-- The canonical form of a header key, `textproto.CanonicalMIMEHeaderKey`: a key that is not a
valid field name is returned unchanged. -/
def CanonicalMIMEHeaderKey (s : String) : String :=
  if s.toList.all validHeaderFieldByte then String.mk (canonicalLoop true s.toList) else s

/-- The call `w.Header().Add(key, value)`. -/
def ResponseWriter.HeaderAdd (w : ResponseWriter) (key value : String) : ResponseWriter :=
  { w with header := w.header ++ [(CanonicalMIMEHeaderKey key, value)] }

/-- The call `w.WriteHeader(code)`: only the first status counts. -/
def ResponseWriter.WriteHeader (w : ResponseWriter) (code : Nat) : ResponseWriter :=
  if w.wroteHeader then w
  else { w with explicitStatus := some code, wroteHeader := true }

/-- The call `w.Write(b)`: sends the implicit `200` status line first when none has gone
out. -/
def ResponseWriter.Write (w : ResponseWriter) (b : String) : ResponseWriter :=
  { w with wroteHeader := true, body := w.body ++ b }

/-- The status the client sees: the explicit one, else `200`. -/
def ResponseWriter.statusCode (w : ResponseWriter) : Nat :=
  w.explicitStatus.getD StatusOK

/-! ## The handler's environment -/

/-- The lines `getOrder` can log, with the value formatted into each. -/
inductive LogLine where
  | badMethod (method : String)
  | badRequest (err : String)
  | badMakerAmount (err : NumError)
  | encodeError (err : String)
  | noAmount
deriving DecidableEq, Repr

/-- The world around one handler call: the readings `time.Now` will return
and how many were taken, the values `rand.Intn` will return and how many were
drawn, and the log written so far. -/
structure World where
  clock : Nat → Time
  clockReads : Nat
  intn : Nat → Nat
  randDraws : Nat
  log : List LogLine

/-- The reading the next `time.Now()` returns. -/
def World.now (σ : World) : Time := σ.clock σ.clockReads

/-- The value the next `rand.Intn` returns. -/
def World.draw (σ : World) : Nat := σ.intn σ.randDraws

/-- The call `log.Printf`. -/
def World.logPrintf (σ : World) (l : LogLine) : World :=
  { σ with log := σ.log ++ [l] }

/-- The call `time.Now()`. -/
def World.timeNow (σ : World) : Time × World :=
  (σ.now, { σ with clockReads := σ.clockReads + 1 })

/-- The call `rand.Intn(n)`: the library returns a value in `[0, n)`. -/
def World.randIntn (σ : World) (_n : Nat) : Nat × World :=
  (σ.draw, { σ with randDraws := σ.randDraws + 1 })

/-- The conversion `uint32(n)` of a non-negative `int`. -/
def uint32 (n : Nat) : Nat := n % 2 ^ 32

/-! ## getOrder -/

/-- The quote built for a parsed `makerAmount`, at clock reading `now` and
random draw `d`. -/
def makeOrder (request : GetOrderRequest) (makerAmount : Int) (now : Time) (d : Nat) :
    GetOrderResponse :=
  let expiration := (now.Add (5 * Minute)).Unix
  let nonce := uint32 d
  let takerAmount := Float64.mul (Float64.ofInt makerAmount) price
  { MakerToken := request.MakerToken
    TakerToken := request.TakerToken
    MakerAmount := request.MakerAmount
    TakerAmount := Itoa (Float64.toInt takerAmount)
    Expiration := expiration
    Nonce := nonce }

/-- The handler.  `decode` is `json.NewDecoder(r.Body).Decode(&request)`: the
decoded request, or the decoder's error text. -/
def getOrder (decode : List UInt8 → Except String GetOrderRequest) (r : Request)
    (w : ResponseWriter) (σ : World) : ResponseWriter × World :=
  if r.Method ≠ MethodPost then
    (w.WriteHeader StatusBadRequest, σ.logPrintf (.badMethod r.Method))
  else
    match decode r.Body with
    | .error err =>
      (w.WriteHeader StatusBadRequest, σ.logPrintf (.badRequest err))
    | .ok request =>
      if request.MakerAmount ≠ "" then
        match Atoi request.MakerAmount with
        | .error err =>
          (w.WriteHeader StatusBadRequest, σ.logPrintf (.badMakerAmount err))
        | .ok makerAmount =>
          let (now, σ1) := σ.timeNow
          let (d, σ2) := σ1.randIntn 99999
          let order := makeOrder request makerAmount now d
          match jsonMarshal order with
          | .error err =>
            (w.WriteHeader StatusInternalServerError, σ2.logPrintf (.encodeError err))
          | .ok response =>
            ((w.HeaderAdd "content-type" "application/json").Write response, σ2)
      else if request.TakerAmount ≠ "" then
        (w, σ)
      else
        (w.WriteHeader StatusBadRequest, σ.logPrintf .noAmount)

/-! ## Sample inputs -/

/-- A decoder that yields the same request for every body. -/
def constDecode (q : GetOrderRequest) : List UInt8 → Except String GetOrderRequest :=
  fun _ => .ok q

/-- A decoder that rejects every body. -/
def failDecode : List UInt8 → Except String GetOrderRequest :=
  fun _ => .error "unexpected end of JSON input"

/-- A world whose clock always reads `t` and whose random source always
returns `d`. -/
def sampleWorld (t : Time) (d : Nat) : World :=
  ⟨fun _ => t, 0, fun _ => d, 0, []⟩

/-- The request of the spec's scenario. -/
def wethDai : GetOrderRequest :=
  ⟨"", "", "WETH", "DAI", "", "100"⟩

/-! ## Auxiliary facts -/

theorem canonical_content_type :
    CanonicalMIMEHeaderKey "content-type" = "Content-Type" := by
  decide

theorem fresh_quote_writer (b : String) :
    (ResponseWriter.fresh.HeaderAdd "content-type" "application/json").Write b
      = ⟨[("Content-Type", "application/json")], none, true, b⟩ := by
  simp [ResponseWriter.HeaderAdd, ResponseWriter.Write, ResponseWriter.fresh,
    canonical_content_type]

theorem fresh_writeHeader (code : Nat) :
    ResponseWriter.fresh.WriteHeader code = ⟨[], some code, true, ""⟩ := by
  simp [ResponseWriter.WriteHeader, ResponseWriter.fresh]

/-- A request with any other method than POST is answered with a bare 400
before the body is looked at. -/
theorem getOrder_badMethod (decode : List UInt8 → Except String GetOrderRequest) (r : Request)
    (w : ResponseWriter) (σ : World) (hm : r.Method ≠ MethodPost) :
    getOrder decode r w σ =
      (w.WriteHeader StatusBadRequest, σ.logPrintf (.badMethod r.Method)) := by
  unfold getOrder
  rw [if_pos hm]

/-- A string that `Atoi` accepts is not empty. -/
theorem Atoi_ok_ne_empty (s : String) (M : Int) (ha : Atoi s = .ok M) : s ≠ "" := by
  intro h
  have h0 : Atoi "" = .error .ErrSyntax := rfl
  rw [h, h0] at ha
  cases ha

/-- A request that is a POST, decodes, and carries a parseable `makerAmount`
takes the quoting path: one clock reading, one random draw, the header and
one write of the encoded order. -/
theorem getOrder_quote (decode : List UInt8 → Except String GetOrderRequest) (r : Request)
    (w : ResponseWriter) (σ : World) (q : GetOrderRequest) (M : Int)
    (hm : r.Method = MethodPost) (hd : decode r.Body = .ok q)
    (ha : Atoi q.MakerAmount = .ok M) :
    getOrder decode r w σ =
      ((w.HeaderAdd "content-type" "application/json").Write
          (jsonObject (makeOrder q M σ.now σ.draw)),
        { σ with clockReads := σ.clockReads + 1, randDraws := σ.randDraws + 1 }) := by
  have hne : q.MakerAmount ≠ "" := Atoi_ok_ne_empty _ M ha
  simp [getOrder, hm, hd, hne, ha, jsonMarshal, World.timeNow, World.randIntn, World.now,
    World.draw]

/-- A non-empty `makerAmount` that `Atoi` rejects is answered with a bare
400. -/
theorem getOrder_badAmount (decode : List UInt8 → Except String GetOrderRequest) (r : Request)
    (w : ResponseWriter) (σ : World) (q : GetOrderRequest) (e : NumError)
    (hm : r.Method = MethodPost) (hd : decode r.Body = .ok q)
    (hne : q.MakerAmount ≠ "") (ha : Atoi q.MakerAmount = .error e) :
    getOrder decode r w σ =
      (w.WriteHeader StatusBadRequest, σ.logPrintf (.badMakerAmount e)) := by
  simp [getOrder, hm, hd, hne, ha]

theorem jsonObject_ne_empty (o : GetOrderResponse) : jsonObject o ≠ "" := by
  intro h
  have hl := congrArg String.length h
  have h0 : ("\x7b\"makerToken\":").length = 14 := by decide
  simp only [jsonObject, String.length_append, h0] at hl
  have h1 : ("").length = 0 := rfl
  omega

theorem round_small (m e : Int) (h : m.natAbs < 2 ^ 53) : Float64.round m e = ⟨m, e⟩ := by
  unfold Float64.round
  simp only []
  rw [if_pos h]

/-- Within the exactly representable range the quoted amount is `M / 2`
truncated toward zero. -/
theorem toInt_mul_price (M : Int) (h : M.natAbs ≤ 2 ^ 53) :
    Float64.toInt (Float64.mul (Float64.ofInt M) price) = Int.tdiv M 2 := by
  rcases Nat.lt_or_ge M.natAbs (2 ^ 53) with hlt | hge
  · have h1 : Float64.ofInt M = ⟨M, 0⟩ := round_small M 0 hlt
    have h2 : Float64.mul ⟨M, 0⟩ price = ⟨M, -1⟩ := by
      have := round_small (M * 1) (0 + -1) (by simpa using hlt)
      simpa [Float64.mul, price] using this
    rw [h1, h2]
    simp [Float64.toInt]
  · have habs : M.natAbs = 2 ^ 53 := le_antisymm h hge
    have hM : M = 2 ^ 53 ∨ M = -(2 ^ 53) := by omega
    rcases hM with rfl | rfl <;> decide

theorem floor_half (M : Int) : ⌊(M : ℚ) * 0.5⌋ = M / 2 := by
  rw [Int.floor_eq_iff]
  have h1 : M = 2 * (M / 2) + M % 2 := by omega
  have h2 : 0 ≤ M % 2 := by omega
  have h3 : M % 2 < 2 := by omega
  have h1q : (M : ℚ) = 2 * ((M / 2 : Int) : ℚ) + ((M % 2 : Int) : ℚ) := by exact_mod_cast h1
  have h2q : (0 : ℚ) ≤ ((M % 2 : Int) : ℚ) := by exact_mod_cast h2
  have h3q : ((M % 2 : Int) : ℚ) < 2 := by exact_mod_cast h3
  constructor <;> norm_num <;> linarith

theorem tdiv_two (M : Int) :
    Int.tdiv M 2 = if 0 ≤ M then M / 2 else -((-M) / 2) := by
  split
  · next h => exact Int.tdiv_eq_ediv h (by decide)
  · next h =>
    have h1 : Int.tdiv (-(-M)) 2 = -(Int.tdiv (-M) 2) := Int.neg_tdiv (-M) 2
    rw [neg_neg] at h1
    rw [h1, Int.tdiv_eq_ediv (by omega) (by decide)]

theorem floor_div_two (M : Int) : ⌊(M : ℚ) / 2⌋ = M / 2 := by
  have h := floor_half M
  have e : (M : ℚ) * 0.5 = (M : ℚ) / 2 := by norm_num; ring
  rw [e] at h
  exact h

theorem ceil_div_two_odd (M : Int) (h : M % 2 = 1) : ⌈(M : ℚ) / 2⌉ = M / 2 + 1 := by
  rw [Int.ceil_eq_iff]
  have h1 : M = 2 * (M / 2) + 1 := by omega
  have h1q : (M : ℚ) = 2 * ((M / 2 : Int) : ℚ) + 1 := by exact_mod_cast h1
  constructor
  · push_cast
    linarith
  · push_cast
    linarith

theorem add_five_minutes (t : Time) (h0 : 0 ≤ t.nsec) (h1 : t.nsec < 1000000000) :
    (t.Add (5 * Minute)).Unix = t.sec + 300 := by
  have hd : Int.tdiv (5 * Minute) 1000000000 = 300 := by decide
  have hr : Int.tmod (5 * Minute) 1000000000 = 0 := by decide
  unfold Time.Add
  simp only [hd, hr, add_zero]
  rw [if_neg (by omega), if_neg (by omega)]
  rfl

/-- A value `Atoi` returns fits the 64-bit `int`. -/
theorem Atoi_range (s : String) (M : Int) (ha : Atoi s = .ok M) :
    -(2 ^ 63) ≤ M ∧ M < 2 ^ 63 := by
  unfold Atoi ParseInt at ha
  cases hs : s.toList with
  | nil => rw [hs] at ha; cases ha
  | cons c cs =>
    rw [hs] at ha
    simp only at ha
    split at ha
    · cases ha
    · rename_i r hr
      generalize (match r with
        | .ok v => v
        | .error _ => maxUint64) = un at ha
      split_ifs at ha with h1 h2 h3 <;> cases ha <;> omega

theorem bitLenAux_zero (fuel : Nat) : bitLenAux fuel 0 = 0 := by
  cases fuel <;> simp [bitLenAux]

theorem bitLenAux_spec (fuel : Nat) : ∀ a : Nat, a ≤ fuel → a ≠ 0 →
    2 ^ (bitLenAux fuel a - 1) ≤ a ∧ a < 2 ^ (bitLenAux fuel a) := by
  induction fuel with
  | zero => intro a h h0; omega
  | succ f ih =>
    intro a h h0
    rw [bitLenAux, if_neg h0]
    by_cases h2 : a / 2 = 0
    · have : a = 1 := by omega
      subst this
      rw [h2, bitLenAux_zero]
      decide
    · have := ih (a / 2) (by omega) h2
      have hb : bitLenAux f (a / 2) ≠ 0 := by
        intro hb
        rw [hb] at this
        omega
      obtain ⟨b, hb⟩ := Nat.exists_eq_succ_of_ne_zero hb
      rw [hb] at this ⊢
      simp only [Nat.succ_eq_add_one, Nat.add_sub_cancel] at this ⊢
      rw [pow_succ] at this ⊢
      rw [pow_succ] 
      omega


theorem bitLen_spec (a : Nat) (h : a ≠ 0) :
    2 ^ (bitLen a - 1) ≤ a ∧ a < 2 ^ (bitLen a) :=
  bitLenAux_spec a a le_rfl h

theorem ofInt_large (M : Int) (h1 : 2 ^ 53 ≤ M.natAbs) (h2 : M.natAbs ≤ 2 ^ 63) :
    ∃ k : Nat, (Float64.ofInt M).exp = (k : Int) ∧ 1 ≤ k ∧
      (Float64.ofInt M).mant.natAbs ≤ 2 ^ 53 ∧
      (Float64.ofInt M).mant.natAbs * 2 ^ (k - 1) ≤ 2 ^ 62 := by
  have hne : M.natAbs ≠ 0 := by
    have : 0 < 2 ^ 53 := by decide
    omega
  have hM : M ≠ 0 := by
    intro h
    rw [h] at hne
    exact hne rfl
  obtain ⟨s1, s2⟩ := bitLen_spec M.natAbs hne
  have hL1 : 53 < bitLen M.natAbs :=
    (Nat.pow_lt_pow_iff_right (by decide : 1 < 2)).1 (lt_of_le_of_lt h1 s2)
  have hL2 : bitLen M.natAbs - 1 ≤ 63 :=
    (Nat.pow_le_pow_iff_right (by decide : 1 < 2)).1 (le_trans s1 h2)
  unfold Float64.ofInt Float64.round
  simp only []
  rw [if_neg (by omega)]
  refine ⟨bitLen M.natAbs - 53, by rw [zero_add], by omega, ?_⟩
  simp only [Int.natAbs_mul, Int.natAbs_sign_of_nonzero hM, one_mul, Int.natAbs_ofNat]
  generalize bitLen M.natAbs = L at *
  generalize M.natAbs = a at *
  have hL3 : L ≤ 64 := by omega
  constructor
  · interval_cases L <;> norm_num at * <;> split_ifs <;> omega
  · interval_cases L <;> norm_num at * <;> split_ifs <;> omega

theorem round_pow53 (e : Int) : Float64.round (2 ^ 53) e = ⟨2 ^ 52, e + 1⟩ := by
  have h : Float64.round (2 ^ 53) 0 = ⟨2 ^ 52, 0 + 1⟩ := by decide
  unfold Float64.round at h ⊢
  simp only [] at h ⊢
  rw [if_neg (by decide : ¬ Int.natAbs (2 ^ 53 : Int) < 2 ^ 53)] at h ⊢
  injection h with h1 h2
  rw [zero_add, zero_add] at h2
  rw [h1, h2]

theorem round_neg_pow53 (e : Int) : Float64.round (-(2 ^ 53)) e = ⟨-(2 ^ 52), e + 1⟩ := by
  have h : Float64.round (-(2 ^ 53)) 0 = ⟨-(2 ^ 52), 0 + 1⟩ := by decide
  unfold Float64.round at h ⊢
  simp only [] at h ⊢
  rw [if_neg (by decide : ¬ Int.natAbs (-(2 ^ 53) : Int) < 2 ^ 53)] at h ⊢
  injection h with h1 h2
  rw [zero_add, zero_add] at h2
  rw [h1, h2]

theorem toInt_mul_price_scaled (x : Float64) (he : 1 ≤ x.exp) (hm : x.mant.natAbs ≤ 2 ^ 53) :
    Float64.toInt (Float64.mul x price) = x.mant * 2 ^ (x.exp - 1).toNat := by
  obtain ⟨m, e⟩ := x
  simp only at he hm
  rcases Nat.lt_or_ge m.natAbs (2 ^ 53) with hlt | hge
  · have h2 : Float64.mul ⟨m, e⟩ price = ⟨m, e - 1⟩ := by
      have := round_small (m * 1) (e + -1) (by simpa using hlt)
      simpa [Float64.mul, price, sub_eq_add_neg] using this
    rw [h2]
    simp only [Float64.toInt]
    rw [if_pos (by omega)]
  · have habs : m.natAbs = 2 ^ 53 := le_antisymm hm hge
    obtain ⟨n, rfl⟩ : ∃ n : Nat, e = (n : Int) + 1 := ⟨(e - 1).toNat, by omega⟩
    have hM : m = 2 ^ 53 ∨ m = -(2 ^ 53) := by omega
    have e1 : ((n : Int) + 1 + -1 + 1).toNat = n + 1 := by omega
    have e2 : ((n : Int) + 1 - 1).toNat = n := by omega
    have e3 : (0 : Int) ≤ (n : Int) + 1 + -1 + 1 := by omega
    rcases hM with rfl | rfl
    · simp only [Float64.mul, price, mul_one, round_pow53, Float64.toInt]
      rw [if_pos e3, e1, e2, pow_succ]
      ring
    · simp only [Float64.mul, price, mul_one, round_neg_pow53, Float64.toInt]
      rw [if_pos e3, e1, e2, pow_succ]
      ring

/-- The conversion `int(takerAmount)` stays inside the `int` range: for every
`int` value of `makerAmount` the truncated product lies in `[-2^62, 2^62]`. -/
theorem quote_in_int_range (M : Int) (h1 : -(2 ^ 63) ≤ M) (h2 : M < 2 ^ 63) :
    (Float64.toInt (Float64.mul (Float64.ofInt M) price)).natAbs ≤ 2 ^ 62 := by
  rcases Nat.lt_or_ge M.natAbs (2 ^ 53) with hlt | hge
  · rw [toInt_mul_price M (le_of_lt hlt), tdiv_two]
    split <;> omega
  · obtain ⟨k, hk, hk1, hm, hb⟩ := ofInt_large M hge (by omega)
    rw [toInt_mul_price_scaled _ (by omega) hm, hk, Int.natAbs_mul, Int.natAbs_pow]
    have : ((k : Int) - 1).toNat = k - 1 := by omega
    rw [this]
    exact hb

theorem decimalFrom_cons (n : Nat) (c : Char) (cs : List Char) :
    decimalFrom n (c :: cs) = decimalFrom (n * 10 + (c.toNat - 48)) cs := rfl

theorem decimalFrom_nil (n : Nat) : decimalFrom n [] = n := rfl

theorem decimalFrom_ge (cs : List Char) : ∀ n, n ≤ decimalFrom n cs := by
  induction cs with
  | nil => intro n; exact le_rfl
  | cons c cs ih =>
    intro n
    have := ih (n * 10 + (c.toNat - 48))
    show n ≤ decimalFrom (n * 10 + (c.toNat - 48)) cs
    omega

theorem parseUintLoop_ok_iff (cs : List Char) : ∀ (n v : Nat),
    parseUintLoop cs n = .ok v ↔
      (∀ c ∈ cs, isDecimalDigit c) ∧ v = decimalFrom n cs ∧ (cs ≠ [] → decimalFrom n cs ≤ maxUint64) := by
  induction cs with
  | nil =>
    intro n v
    show Except.ok n = Except.ok v ↔ _
    constructor
    · intro h
      injection h with h
      exact ⟨fun c hc => absurd hc (List.not_mem_nil c), h.symm, fun h0 => absurd rfl h0⟩
    · rintro ⟨_, h, _⟩
      rw [h]
      rfl
  | cons c cs ih =>
    intro n v
    have hge := decimalFrom_ge cs (n * 10 + (c.toNat - 48))
    have hmax : maxUint64 = 18446744073709551615 := by decide
    rw [parseUintLoop]
    simp only [decimalFrom_cons, List.mem_cons, forall_eq_or_imp, ne_eq,
      not_false_eq_true, forall_const, reduceCtorEq]
    by_cases hc : 48 ≤ c.toNat ∧ c.toNat ≤ 57
    · rw [if_pos hc]
      by_cases h1 : n ≥ maxUint64 / 10 + 1
      · rw [if_pos h1]
        constructor
        · intro h; cases h
        · rintro ⟨_, _, h3⟩
          rw [hmax] at h1 h3
          omega
      · rw [if_neg h1]
        by_cases h2 : n * 10 + (c.toNat - 48) > maxUint64
        · rw [if_pos h2]
          constructor
          · intro h; cases h
          · rintro ⟨_, _, h3⟩
            omega
        · rw [if_neg h2, ih]
          constructor
          · rintro ⟨a, b, d⟩
            refine ⟨⟨hc, a⟩, b, ?_⟩
            by_cases hcs : cs = []
            · subst hcs
              rw [decimalFrom_nil]
              omega
            · exact d hcs
          · rintro ⟨⟨_, a⟩, b, d⟩
            exact ⟨a, b, fun _ => d⟩
    · rw [if_neg hc]
      constructor
      · intro h; cases h
      · rintro ⟨⟨h, _⟩, _⟩
        exact absurd h hc

theorem ParseUint_ok_iff (ds : List Char) (v : Nat) :
    ParseUint ds = .ok v ↔
      ds ≠ [] ∧ (∀ c ∈ ds, isDecimalDigit c) ∧ v = decimalValue ds ∧ decimalValue ds ≤ maxUint64 := by
  cases ds with
  | nil => simp [ParseUint]
  | cons c cs =>
    simp only [ParseUint, parseUintLoop_ok_iff, decimalValue]
    simp


theorem char_eq_of_toNat (c d : Char) (h : c.toNat = d.toNat) : c = d := by
  rw [← Char.ofNat_toNat c, ← Char.ofNat_toNat d, h]

theorem ParseInt_of_digits (c : Char) (cs ds : List Char) (neg : Prop) [Decidable neg]
    (hneg : neg ↔ c.toNat = 45)
    (hrest : (if c.toNat = 43 ∨ c.toNat = 45 then cs else c :: cs) = ds)
    (hne : ds ≠ []) (hdig : ∀ x ∈ ds, isDecimalDigit x)
    (h1 : ¬ neg → decimalValue ds < 2 ^ 63) (h2 : neg → decimalValue ds ≤ 2 ^ 63) :
    ParseInt (c :: cs)
      = .ok (if neg then -(decimalValue ds : Int) else (decimalValue ds : Int)) := by
  have hmax : maxUint64 = 18446744073709551615 := by decide
  have hle : decimalValue ds ≤ maxUint64 := by
    rw [hmax]
    by_cases hn : neg
    · have := h2 hn
      omega
    · have := h1 hn
      omega
  have hpu : ParseUint ds = .ok (decimalValue ds) :=
    (ParseUint_ok_iff ds _).2 ⟨hne, hdig, rfl, hle⟩
  unfold ParseInt
  simp only [hrest, hpu]
  by_cases hn : neg
  · have hc : c.toNat = 45 := hneg.1 hn
    have := h2 hn
    rw [if_neg (by omega), if_neg (by omega), if_pos hc, if_pos hn]
  · have hc : ¬ c.toNat = 45 := fun h => hn (hneg.2 h)
    have := h1 hn
    rw [if_neg (by omega), if_neg (by omega), if_neg hc, if_neg hn]

/-- The strings `ParseInt` accepts are exactly an optional sign followed by
one or more decimal digits whose value fits the `int`. -/
theorem ParseInt_ok_iff (s : List Char) (M : Int) :
    ParseInt s = .ok M ↔ SignedDecimal s M := by
  have hmax : maxUint64 = 18446744073709551615 := by decide
  constructor
  · intro ha
    unfold ParseInt at ha
    cases s with
    | nil => cases ha
    | cons c cs =>
      simp only at ha
      generalize hrest : (if c.toNat = 43 ∨ c.toNat = 45 then cs else c :: cs) = rest at ha
      generalize hr : ParseUint rest = r at ha
      cases r with
      | error e =>
        cases e
        · cases ha
        · simp only at ha
          rw [hmax] at ha
          split_ifs at ha <;> first | (cases ha; done) | (exfalso; omega)
      | ok v =>
        obtain ⟨h1, h2, h3, h4⟩ := (ParseUint_ok_iff _ v).1 hr
        simp only at ha
        split_ifs at ha with g1 g2 g3
        · injection ha with ha
          rw [if_pos (Or.inr g3)] at hrest
          subst hrest
          have hc : c = '-' := char_eq_of_toNat c '-' g3
          refine ⟨cs, h1, h2, Or.inr ⟨by rw [hc], by rw [← ha, h3]⟩, ?_, ?_⟩ <;> omega
        · injection ha with ha
          by_cases hp : c.toNat = 43
          · rw [if_pos (Or.inl hp)] at hrest
            subst hrest
            have hc : c = '+' := char_eq_of_toNat c '+' hp
            refine ⟨cs, h1, h2, Or.inl ⟨Or.inr (by rw [hc]), by rw [← ha, h3]⟩, ?_, ?_⟩ <;>
              omega
          · rw [if_neg (by omega)] at hrest
            subst hrest
            refine ⟨c :: cs, h1, h2, Or.inl ⟨Or.inl rfl, by rw [← ha, h3]⟩, ?_, ?_⟩ <;> omega
  · rintro ⟨ds, hne, hdig, hcase, hlo, hhi⟩
    rcases hcase with ⟨hs | hs, hM⟩ | ⟨hs, hM⟩
    · cases ds with
      | nil => exact absurd rfl hne
      | cons c cs =>
        have hd : isDecimalDigit c := hdig c (List.mem_cons_self c cs)
        unfold isDecimalDigit at hd
        have := ParseInt_of_digits c cs (c :: cs) False ⟨fun h => h.elim, fun h => by omega⟩
          (by rw [if_neg (by omega)]) hne hdig (fun _ => by omega) (fun h => h.elim)
        rw [hs, hM, this, if_neg not_false]
    · have := ParseInt_of_digits '+' ds ds False (by decide) rfl hne hdig
        (fun _ => by omega) (fun h => h.elim)
      rw [hs, hM, this, if_neg not_false]
    · have := ParseInt_of_digits '-' ds ds True (by decide) rfl hne hdig
        (fun h => (h trivial).elim) (fun _ => by omega)
      rw [hs, hM, this, if_pos trivial]

/-- The strings `Atoi` accepts are exactly an optional sign followed by one
or more decimal digits whose value fits the `int`; every other string is
rejected. -/
theorem Atoi_ok_iff (s : String) (M : Int) :
    Atoi s = .ok M ↔ SignedDecimal s.toList M :=
  ParseInt_ok_iff s.toList M

/-! ## The claims -/

/-- C1, as stated, fails: for makerAmount "-3" the handler quotes takerAmount
"-1" where floor(-3 × 0.5) is -2, and for makerAmount "9007199254740995"
(above 2^53) it quotes "4503599627370498" where the floor is
4503599627370497. -/
theorem C1_floor_counterexample :
    Atoi "-3" = .ok (-3) ∧
    (getOrder (constDecode ⟨"", "", "WETH", "DAI", "", "-3"⟩) ⟨"POST", []⟩ .fresh
        (sampleWorld ⟨1700000000, 0⟩ 42)).1.body
      = jsonObject ⟨"WETH", "DAI", "-3", "-1", 1700000300, 42⟩ ∧
    (makeOrder ⟨"", "", "WETH", "DAI", "", "-3"⟩ (-3) ⟨1700000000, 0⟩ 42).TakerAmount = "-1" ∧
    Itoa ⌊((-3 : Int) : ℚ) * 0.5⌋ = "-2" ∧
    (makeOrder ⟨"", "", "WETH", "DAI", "", "-3"⟩ (-3) ⟨1700000000, 0⟩ 42).TakerAmount
      ≠ Itoa ⌊((-3 : Int) : ℚ) * 0.5⌋ ∧
    Atoi "9007199254740995" = .ok 9007199254740995 ∧
    (makeOrder ⟨"", "", "WETH", "DAI", "", "9007199254740995"⟩ 9007199254740995
        ⟨1700000000, 0⟩ 42).TakerAmount = "4503599627370498" ∧
    Itoa ⌊((9007199254740995 : Int) : ℚ) * 0.5⌋ = "4503599627370497" := by
  have f1 : ⌊((-3 : Int) : ℚ) * 0.5⌋ = -2 := by rw [floor_half]; decide
  have f2 : ⌊((9007199254740995 : Int) : ℚ) * 0.5⌋ = 4503599627370497 := by
    rw [floor_half]; decide
  rw [f1, f2]
  refine ⟨rfl, by decide, by decide, by decide, by decide, rfl, by decide, by decide⟩

/-- C1 (amended): every POST whose body decodes and whose makerAmount (then
necessarily non-empty) parses to M is answered with status 200 and the
encoded quote, whose makerAmount is the request's string; when |M| ≤ 2^53
and M is non-negative or even, the quote's takerAmount is the decimal text of
floor(M × 0.5). -/
theorem C1_maker_quote (decode : List UInt8 → Except String GetOrderRequest) (r : Request)
    (σ : World) (q : GetOrderRequest) (M : Int)
    (hm : r.Method = MethodPost) (hd : decode r.Body = .ok q)
    (ha : Atoi q.MakerAmount = .ok M) :
    (getOrder decode r .fresh σ).1.statusCode = 200 ∧
    (getOrder decode r .fresh σ).1.body = jsonObject (makeOrder q M σ.now σ.draw) ∧
    (makeOrder q M σ.now σ.draw).MakerAmount = q.MakerAmount ∧
    (|M| ≤ 2 ^ 53 → 0 ≤ M ∨ M % 2 = 0 →
      (makeOrder q M σ.now σ.draw).TakerAmount = Itoa ⌊(M : ℚ) * 0.5⌋) := by
  rw [getOrder_quote decode r .fresh σ q M hm hd ha, fresh_quote_writer]
  refine ⟨rfl, rfl, rfl, ?_⟩
  intro h0 h1
  have habs : M.natAbs ≤ 2 ^ 53 := by
    rw [abs_le] at h0
    omega
  have ht : Int.tdiv M 2 = M / 2 := by
    rw [tdiv_two]
    split <;> omega
  show Itoa (Float64.toInt (Float64.mul (Float64.ofInt M) price)) = _
  rw [toInt_mul_price M habs, floor_half, ht]

/-- Witness for C1: makerAmount "100" gives status 200 and takerAmount
"50". -/
theorem C1_maker_quote_witness :
    (getOrder (constDecode wethDai) ⟨"POST", []⟩ .fresh
        (sampleWorld ⟨1700000000, 0⟩ 42)).1.statusCode = 200 ∧
    (getOrder (constDecode wethDai) ⟨"POST", []⟩ .fresh
        (sampleWorld ⟨1700000000, 0⟩ 42)).1.body
      = jsonObject (makeOrder wethDai 100 ⟨1700000000, 0⟩ 42) ∧
    (makeOrder wethDai 100 ⟨1700000000, 0⟩ 42).MakerAmount = "100" ∧
    (makeOrder wethDai 100 ⟨1700000000, 0⟩ 42).TakerAmount
      = Itoa ⌊((100 : Int) : ℚ) * 0.5⌋ ∧
    (makeOrder wethDai 100 ⟨1700000000, 0⟩ 42).TakerAmount = "50" := by
  have h := C1_maker_quote (constDecode wethDai) ⟨"POST", []⟩
    (sampleWorld ⟨1700000000, 0⟩ 42) wethDai 100 rfl rfl rfl
  exact ⟨h.1, h.2.1, h.2.2.1, h.2.2.2 (by decide) (by decide), by decide⟩

/-- C2: a request whose method is not POST gets status 400, no body bytes
and no header, with no clock reading or random draw; the response does not
depend on the body, on the decoder or on the world, so any two such requests
get the same response. -/
theorem C2_wrong_method (decode decode2 : List UInt8 → Except String GetOrderRequest)
    (r r2 : Request) (σ σ2 : World)
    (hm : r.Method ≠ MethodPost) (hm2 : r2.Method ≠ MethodPost) :
    (getOrder decode r .fresh σ).1.statusCode = 400 ∧
    (getOrder decode r .fresh σ).1.body = "" ∧
    (getOrder decode r .fresh σ).1.header = [] ∧
    (getOrder decode r .fresh σ).2 = σ.logPrintf (.badMethod r.Method) ∧
    (getOrder decode r .fresh σ).1 = (getOrder decode2 r2 .fresh σ2).1 := by
  rw [getOrder_badMethod decode r .fresh σ hm, getOrder_badMethod decode2 r2 .fresh σ2 hm2,
    fresh_writeHeader]
  exact ⟨rfl, rfl, rfl, rfl, rfl⟩

/-- Witness for C2: a GET with a well-formed body, and a request with the
lower-case method "post" and a truncated body under a rejecting decoder, both
get the same bare 400. -/
theorem C2_wrong_method_witness :
    (getOrder (constDecode wethDai) ⟨"GET", [123, 125]⟩ .fresh
        (sampleWorld ⟨1700000000, 0⟩ 42)).1.statusCode = 400 ∧
    (getOrder (constDecode wethDai) ⟨"GET", [123, 125]⟩ .fresh
        (sampleWorld ⟨1700000000, 0⟩ 42)).1.body = "" ∧
    (getOrder (constDecode wethDai) ⟨"GET", [123, 125]⟩ .fresh
        (sampleWorld ⟨1700000000, 0⟩ 42)).1.header = [] ∧
    (getOrder (constDecode wethDai) ⟨"GET", [123, 125]⟩ .fresh
        (sampleWorld ⟨1700000000, 0⟩ 42)).2
      = (sampleWorld ⟨1700000000, 0⟩ 42).logPrintf (.badMethod "GET") ∧
    (getOrder (constDecode wethDai) ⟨"GET", [123, 125]⟩ .fresh
        (sampleWorld ⟨1700000000, 0⟩ 42)).1
      = (getOrder failDecode ⟨"post", [123]⟩ .fresh (sampleWorld ⟨5, 7⟩ 1)).1 :=
  C2_wrong_method (constDecode wethDai) failDecode ⟨"GET", [123, 125]⟩ ⟨"post", [123]⟩
    (sampleWorld ⟨1700000000, 0⟩ 42) (sampleWorld ⟨5, 7⟩ 1) (by decide) (by decide)

/-- C3: a POST whose body decodes and whose non-empty makerAmount is rejected
by Atoi gets status 400, an empty body and no header, whatever the other
fields hold; the clock and the random source are left alone. -/
theorem C3_unparsable_makerAmount (decode : List UInt8 → Except String GetOrderRequest)
    (r : Request) (σ : World) (q : GetOrderRequest) (e : NumError)
    (hm : r.Method = MethodPost) (hd : decode r.Body = .ok q)
    (hne : q.MakerAmount ≠ "") (ha : Atoi q.MakerAmount = .error e) :
    (getOrder decode r .fresh σ).1.statusCode = 400 ∧
    (getOrder decode r .fresh σ).1.body = "" ∧
    (getOrder decode r .fresh σ).1.header = [] ∧
    (getOrder decode r .fresh σ).2 = σ.logPrintf (.badMakerAmount e) := by
  rw [getOrder_badAmount decode r .fresh σ q e hm hd hne ha, fresh_writeHeader]
  exact ⟨rfl, rfl, rfl, rfl⟩

/-- Witness for C3: makerAmount "abc" (with a takerAmount supplied as
well). -/
theorem C3_unparsable_makerAmount_witness :
    (getOrder (constDecode ⟨"0xA", "0xB", "WETH", "DAI", "7", "abc"⟩) ⟨"POST", []⟩ .fresh
        (sampleWorld ⟨1700000000, 0⟩ 42)).1.statusCode = 400 ∧
    (getOrder (constDecode ⟨"0xA", "0xB", "WETH", "DAI", "7", "abc"⟩) ⟨"POST", []⟩ .fresh
        (sampleWorld ⟨1700000000, 0⟩ 42)).1.body = "" ∧
    (getOrder (constDecode ⟨"0xA", "0xB", "WETH", "DAI", "7", "abc"⟩) ⟨"POST", []⟩ .fresh
        (sampleWorld ⟨1700000000, 0⟩ 42)).1.header = [] ∧
    (getOrder (constDecode ⟨"0xA", "0xB", "WETH", "DAI", "7", "abc"⟩) ⟨"POST", []⟩ .fresh
        (sampleWorld ⟨1700000000, 0⟩ 42)).2
      = (sampleWorld ⟨1700000000, 0⟩ 42).logPrintf (.badMakerAmount .ErrSyntax) :=
  C3_unparsable_makerAmount (constDecode ⟨"0xA", "0xB", "WETH", "DAI", "7", "abc"⟩)
    ⟨"POST", []⟩ (sampleWorld ⟨1700000000, 0⟩ 42) ⟨"0xA", "0xB", "WETH", "DAI", "7", "abc"⟩
    .ErrSyntax rfl rfl (by decide) rfl

/-- The strings C3 lists are all rejected by Atoi, and the ends of the int
range are accepted. -/
theorem Atoi_samples :
    Atoi "abc" = .error .ErrSyntax ∧ Atoi "1.5" = .error .ErrSyntax ∧
    Atoi " 100" = .error .ErrSyntax ∧ Atoi "1e3" = .error .ErrSyntax ∧
    Atoi "+" = .error .ErrSyntax ∧ Atoi "-" = .error .ErrSyntax ∧
    Atoi "9223372036854775808" = .error .ErrRange ∧
    Atoi "-9223372036854775809" = .error .ErrRange ∧
    Atoi "9223372036854775807" = .ok 9223372036854775807 ∧
    Atoi "-9223372036854775808" = .ok (-9223372036854775808) ∧
    Atoi "+7" = .ok 7 ∧ Atoi "007" = .ok 7 :=
  ⟨rfl, rfl, rfl, rfl, rfl, rfl, rfl, rfl, rfl, rfl, rfl, rfl⟩

/-- C4: a POST whose body decodes to a request with both makerAmount and
takerAmount empty gets status 400, an empty body and no header, whatever the
token and address fields hold. -/
theorem C4_no_amounts (decode : List UInt8 → Except String GetOrderRequest)
    (r : Request) (σ : World) (q : GetOrderRequest)
    (hm : r.Method = MethodPost) (hd : decode r.Body = .ok q)
    (hmk : q.MakerAmount = "") (htk : q.TakerAmount = "") :
    (getOrder decode r .fresh σ).1.statusCode = 400 ∧
    (getOrder decode r .fresh σ).1.body = "" ∧
    (getOrder decode r .fresh σ).1.header = [] ∧
    (getOrder decode r .fresh σ).2 = σ.logPrintf .noAmount := by
  simp [getOrder, hm, hd, hmk, htk, fresh_writeHeader, ResponseWriter.statusCode,
    StatusBadRequest]

/-- Witness for C4: the body `{}`, decoded to the all-empty request. -/
theorem C4_no_amounts_witness :
    (getOrder (constDecode ⟨"", "", "", "", "", ""⟩) ⟨"POST", [123, 125]⟩ .fresh
        (sampleWorld ⟨1700000000, 0⟩ 42)).1.statusCode = 400 ∧
    (getOrder (constDecode ⟨"", "", "", "", "", ""⟩) ⟨"POST", [123, 125]⟩ .fresh
        (sampleWorld ⟨1700000000, 0⟩ 42)).1.body = "" ∧
    (getOrder (constDecode ⟨"", "", "", "", "", ""⟩) ⟨"POST", [123, 125]⟩ .fresh
        (sampleWorld ⟨1700000000, 0⟩ 42)).1.header = [] ∧
    (getOrder (constDecode ⟨"", "", "", "", "", ""⟩) ⟨"POST", [123, 125]⟩ .fresh
        (sampleWorld ⟨1700000000, 0⟩ 42)).2
      = (sampleWorld ⟨1700000000, 0⟩ 42).logPrintf .noAmount :=
  C4_no_amounts (constDecode ⟨"", "", "", "", "", ""⟩) ⟨"POST", [123, 125]⟩
    (sampleWorld ⟨1700000000, 0⟩ 42) ⟨"", "", "", "", "", ""⟩ rfl rfl rfl rfl

/-- C5: for a successful quote processed at clock reading now (any
sub-second part), the encoded quote's expiration is the Unix seconds of
now + 5 minutes, which is the Unix seconds of now plus exactly 300, and so
lies in [now, now + 300]. -/
theorem C5_expiration (decode : List UInt8 → Except String GetOrderRequest) (r : Request)
    (σ : World) (q : GetOrderRequest) (M : Int)
    (hm : r.Method = MethodPost) (hd : decode r.Body = .ok q)
    (ha : Atoi q.MakerAmount = .ok M)
    (h0 : 0 ≤ σ.now.nsec) (h1 : σ.now.nsec < 1000000000) :
    (getOrder decode r .fresh σ).1.body = jsonObject (makeOrder q M σ.now σ.draw) ∧
    (makeOrder q M σ.now σ.draw).Expiration = (σ.now.Add (5 * Minute)).Unix ∧
    (makeOrder q M σ.now σ.draw).Expiration = σ.now.Unix + 300 ∧
    σ.now.Unix ≤ (makeOrder q M σ.now σ.draw).Expiration ∧
    (makeOrder q M σ.now σ.draw).Expiration ≤ σ.now.Unix + 300 := by
  rw [getOrder_quote decode r .fresh σ q M hm hd ha, fresh_quote_writer]
  have h : (makeOrder q M σ.now σ.draw).Expiration = σ.now.Unix + 300 :=
    add_five_minutes σ.now h0 h1
  refine ⟨rfl, rfl, h, ?_, ?_⟩
  · rw [h]; omega
  · rw [h]

/-- Witness for C5: a reading of 1700000000 s and 999999999 ns gives
expiration 1700000300. -/
theorem C5_expiration_witness :
    (getOrder (constDecode wethDai) ⟨"POST", []⟩ .fresh
        (sampleWorld ⟨1700000000, 999999999⟩ 42)).1.body
      = jsonObject (makeOrder wethDai 100 ⟨1700000000, 999999999⟩ 42) ∧
    (makeOrder wethDai 100 ⟨1700000000, 999999999⟩ 42).Expiration
      = (Time.Add ⟨1700000000, 999999999⟩ (5 * Minute)).Unix ∧
    (makeOrder wethDai 100 ⟨1700000000, 999999999⟩ 42).Expiration = 1700000000 + 300 ∧
    1700000000 ≤ (makeOrder wethDai 100 ⟨1700000000, 999999999⟩ 42).Expiration ∧
    (makeOrder wethDai 100 ⟨1700000000, 999999999⟩ 42).Expiration ≤ 1700000000 + 300 :=
  C5_expiration (constDecode wethDai) ⟨"POST", []⟩ (sampleWorld ⟨1700000000, 999999999⟩ 42)
    wethDai 100 rfl rfl rfl (by decide) (by decide)

/-- C6: for a successful quote and any value d < 99999 that rand.Intn(99999)
returns, the encoded quote's nonce is d itself (the uint32 conversion does
not wrap), so 0 ≤ nonce < 99999. -/
theorem C6_nonce (decode : List UInt8 → Except String GetOrderRequest) (r : Request)
    (σ : World) (q : GetOrderRequest) (M : Int)
    (hm : r.Method = MethodPost) (hd : decode r.Body = .ok q)
    (ha : Atoi q.MakerAmount = .ok M)
    (hdraw : σ.draw < 99999) :
    (getOrder decode r .fresh σ).1.body = jsonObject (makeOrder q M σ.now σ.draw) ∧
    (makeOrder q M σ.now σ.draw).Nonce = σ.draw ∧
    0 ≤ (makeOrder q M σ.now σ.draw).Nonce ∧
    (makeOrder q M σ.now σ.draw).Nonce < 99999 := by
  rw [getOrder_quote decode r .fresh σ q M hm hd ha, fresh_quote_writer]
  have h : (makeOrder q M σ.now σ.draw).Nonce = σ.draw := by
    show σ.draw % 2 ^ 32 = σ.draw
    exact Nat.mod_eq_of_lt (by omega)
  refine ⟨rfl, h, Nat.zero_le _, ?_⟩
  rw [h]
  exact hdraw

/-- Witness for C6: the largest draw, 99998. -/
theorem C6_nonce_witness :
    (getOrder (constDecode wethDai) ⟨"POST", []⟩ .fresh
        (sampleWorld ⟨1700000000, 0⟩ 99998)).1.body
      = jsonObject (makeOrder wethDai 100 ⟨1700000000, 0⟩ 99998) ∧
    (makeOrder wethDai 100 ⟨1700000000, 0⟩ 99998).Nonce = 99998 ∧
    0 ≤ (makeOrder wethDai 100 ⟨1700000000, 0⟩ 99998).Nonce ∧
    (makeOrder wethDai 100 ⟨1700000000, 0⟩ 99998).Nonce < 99999 :=
  C6_nonce (constDecode wethDai) ⟨"POST", []⟩ (sampleWorld ⟨1700000000, 0⟩ 99998)
    wethDai 100 rfl rfl rfl (by decide)

/-- C7: for a successful quote the serialized record carries the request's
makerToken and takerToken unchanged, the only header set is Content-Type:
application/json, no status is set explicitly so the status is the implicit
200, and the body is not empty. -/
theorem C7_quote_response (decode : List UInt8 → Except String GetOrderRequest) (r : Request)
    (σ : World) (q : GetOrderRequest) (M : Int)
    (hm : r.Method = MethodPost) (hd : decode r.Body = .ok q)
    (ha : Atoi q.MakerAmount = .ok M) :
    (getOrder decode r .fresh σ).1.body = jsonObject (makeOrder q M σ.now σ.draw) ∧
    (makeOrder q M σ.now σ.draw).MakerToken = q.MakerToken ∧
    (makeOrder q M σ.now σ.draw).TakerToken = q.TakerToken ∧
    (getOrder decode r .fresh σ).1.header = [("Content-Type", "application/json")] ∧
    (getOrder decode r .fresh σ).1.explicitStatus = none ∧
    (getOrder decode r .fresh σ).1.statusCode = 200 ∧
    (getOrder decode r .fresh σ).1.body ≠ "" := by
  rw [getOrder_quote decode r .fresh σ q M hm hd ha, fresh_quote_writer]
  exact ⟨rfl, rfl, rfl, rfl, rfl, rfl, jsonObject_ne_empty _⟩

/-- Witness for C7: makerToken "WETH", takerToken "DAI", makerAmount
"100". -/
theorem C7_quote_response_witness :
    (getOrder (constDecode wethDai) ⟨"POST", []⟩ .fresh
        (sampleWorld ⟨1700000000, 0⟩ 42)).1.body
      = jsonObject (makeOrder wethDai 100 ⟨1700000000, 0⟩ 42) ∧
    (makeOrder wethDai 100 ⟨1700000000, 0⟩ 42).MakerToken = "WETH" ∧
    (makeOrder wethDai 100 ⟨1700000000, 0⟩ 42).TakerToken = "DAI" ∧
    (getOrder (constDecode wethDai) ⟨"POST", []⟩ .fresh
        (sampleWorld ⟨1700000000, 0⟩ 42)).1.header = [("Content-Type", "application/json")] ∧
    (getOrder (constDecode wethDai) ⟨"POST", []⟩ .fresh
        (sampleWorld ⟨1700000000, 0⟩ 42)).1.explicitStatus = none ∧
    (getOrder (constDecode wethDai) ⟨"POST", []⟩ .fresh
        (sampleWorld ⟨1700000000, 0⟩ 42)).1.statusCode = 200 ∧
    (getOrder (constDecode wethDai) ⟨"POST", []⟩ .fresh
        (sampleWorld ⟨1700000000, 0⟩ 42)).1.body ≠ "" :=
  C7_quote_response (constDecode wethDai) ⟨"POST", []⟩ (sampleWorld ⟨1700000000, 0⟩ 42)
    wethDai 100 rfl rfl rfl

/-- The full response text of the spec's scenario. -/
theorem wethDai_body :
    (getOrder (constDecode wethDai) ⟨"POST", []⟩ .fresh
        (sampleWorld ⟨1700000000, 0⟩ 42)).1.body
      = "\x7b\"makerToken\":\"WETH\",\"takerToken\":\"DAI\",\"makerAmount\":\"100\",\"takerAmount\":\"50\",\"expiration\":1700000300,\"nonce\":42\x7d" := by
  decide

/-- C8: a POST whose body decodes with an empty makerAmount and a non-empty
takerAmount leaves the response writer and the world untouched: no body, no
header, no explicit status (so HTTP 200 with an empty body), no clock
reading, no random draw, no log line. -/
theorem C8_takerAmount_only (decode : List UInt8 → Except String GetOrderRequest)
    (r : Request) (w : ResponseWriter) (σ : World) (q : GetOrderRequest)
    (hm : r.Method = MethodPost) (hd : decode r.Body = .ok q)
    (hmk : q.MakerAmount = "") (htk : q.TakerAmount ≠ "") :
    getOrder decode r w σ = (w, σ) ∧
    (getOrder decode r .fresh σ).1.body = "" ∧
    (getOrder decode r .fresh σ).1.header = [] ∧
    (getOrder decode r .fresh σ).1.explicitStatus = none ∧
    (getOrder decode r .fresh σ).1.statusCode = 200 ∧
    (getOrder decode r .fresh σ).2.clockReads = σ.clockReads ∧
    (getOrder decode r .fresh σ).2.randDraws = σ.randDraws := by
  have h : ∀ w0, getOrder decode r w0 σ = (w0, σ) := by
    intro w0
    simp [getOrder, hm, hd, hmk, htk]
  rw [h w, h .fresh]
  exact ⟨rfl, rfl, rfl, rfl, rfl, rfl, rfl⟩

/-- Witness for C8: takerAmount "abc" (not even numeric) and no
makerAmount. -/
theorem C8_takerAmount_only_witness :
    getOrder (constDecode ⟨"", "", "WETH", "DAI", "abc", ""⟩) ⟨"POST", []⟩ .fresh
        (sampleWorld ⟨1700000000, 0⟩ 42)
      = (.fresh, sampleWorld ⟨1700000000, 0⟩ 42) ∧
    (getOrder (constDecode ⟨"", "", "WETH", "DAI", "abc", ""⟩) ⟨"POST", []⟩ .fresh
        (sampleWorld ⟨1700000000, 0⟩ 42)).1.body = "" ∧
    (getOrder (constDecode ⟨"", "", "WETH", "DAI", "abc", ""⟩) ⟨"POST", []⟩ .fresh
        (sampleWorld ⟨1700000000, 0⟩ 42)).1.header = [] ∧
    (getOrder (constDecode ⟨"", "", "WETH", "DAI", "abc", ""⟩) ⟨"POST", []⟩ .fresh
        (sampleWorld ⟨1700000000, 0⟩ 42)).1.explicitStatus = none ∧
    (getOrder (constDecode ⟨"", "", "WETH", "DAI", "abc", ""⟩) ⟨"POST", []⟩ .fresh
        (sampleWorld ⟨1700000000, 0⟩ 42)).1.statusCode = 200 ∧
    (getOrder (constDecode ⟨"", "", "WETH", "DAI", "abc", ""⟩) ⟨"POST", []⟩ .fresh
        (sampleWorld ⟨1700000000, 0⟩ 42)).2.clockReads = 0 ∧
    (getOrder (constDecode ⟨"", "", "WETH", "DAI", "abc", ""⟩) ⟨"POST", []⟩ .fresh
        (sampleWorld ⟨1700000000, 0⟩ 42)).2.randDraws = 0 :=
  C8_takerAmount_only (constDecode ⟨"", "", "WETH", "DAI", "abc", ""⟩) ⟨"POST", []⟩ .fresh
    (sampleWorld ⟨1700000000, 0⟩ 42) ⟨"", "", "WETH", "DAI", "abc", ""⟩ rfl rfl rfl (by decide)

/-- The quote depends on the request only through makerToken, takerToken and
makerAmount. -/
theorem makeOrder_congr (q1 q2 : GetOrderRequest) (M : Int) (now : Time) (d : Nat)
    (hamt : q1.MakerAmount = q2.MakerAmount) (hmt : q1.MakerToken = q2.MakerToken)
    (htt : q1.TakerToken = q2.TakerToken) :
    makeOrder q1 M now d = makeOrder q2 M now d := by
  simp [makeOrder, hamt, hmt, htt]

/-- C9: two POST requests that decode with the same non-empty makerAmount,
makerToken and takerToken, handled at the same clock reading and random
draw, get identical responses (headers, status, body) whatever their
takerAmount, makerAddress and takerAddress are; from the same world the
resulting worlds (log included) agree as well. -/
theorem C9_takerAmount_ignored (decode : List UInt8 → Except String GetOrderRequest)
    (r1 r2 : Request) (σ1 σ2 : World) (q1 q2 : GetOrderRequest)
    (hm1 : r1.Method = MethodPost) (hm2 : r2.Method = MethodPost)
    (hd1 : decode r1.Body = .ok q1) (hd2 : decode r2.Body = .ok q2)
    (hne : q1.MakerAmount ≠ "") (hamt : q1.MakerAmount = q2.MakerAmount)
    (hmt : q1.MakerToken = q2.MakerToken) (htt : q1.TakerToken = q2.TakerToken)
    (hnow : σ1.now = σ2.now) (hdraw : σ1.draw = σ2.draw) :
    (getOrder decode r1 .fresh σ1).1 = (getOrder decode r2 .fresh σ2).1 ∧
    (getOrder decode r1 .fresh σ1).1.statusCode
      = (getOrder decode r2 .fresh σ2).1.statusCode ∧
    (getOrder decode r1 .fresh σ1).1.header = (getOrder decode r2 .fresh σ2).1.header ∧
    (getOrder decode r1 .fresh σ1).1.body = (getOrder decode r2 .fresh σ2).1.body ∧
    getOrder decode r1 .fresh σ1 = getOrder decode r2 .fresh σ1 := by
  have hne2 : q2.MakerAmount ≠ "" := hamt ▸ hne
  have key : ∀ τ1 τ2 : World, τ1.now = τ2.now → τ1.draw = τ2.draw →
      (getOrder decode r1 .fresh τ1).1 = (getOrder decode r2 .fresh τ2).1 ∧
      getOrder decode r1 .fresh τ1 = getOrder decode r2 .fresh τ1 := by
    intro τ1 τ2 hn hdr
    cases ha : Atoi q1.MakerAmount with
    | error e =>
      have ha2 : Atoi q2.MakerAmount = .error e := hamt ▸ ha
      rw [getOrder_badAmount decode r1 .fresh τ1 q1 e hm1 hd1 hne ha,
        getOrder_badAmount decode r2 .fresh τ2 q2 e hm2 hd2 hne2 ha2,
        getOrder_badAmount decode r2 .fresh τ1 q2 e hm2 hd2 hne2 ha2]
      exact ⟨rfl, rfl⟩
    | ok M =>
      have ha2 : Atoi q2.MakerAmount = .ok M := hamt ▸ ha
      rw [getOrder_quote decode r1 .fresh τ1 q1 M hm1 hd1 ha,
        getOrder_quote decode r2 .fresh τ2 q2 M hm2 hd2 ha2,
        getOrder_quote decode r2 .fresh τ1 q2 M hm2 hd2 ha2,
        makeOrder_congr q1 q2 M τ1.now τ1.draw hamt hmt htt, hn, hdr]
      exact ⟨rfl, rfl⟩
  have h := key σ1 σ2 hnow hdraw
  refine ⟨h.1, ?_, ?_, ?_, h.2⟩
  · rw [h.1]
  · rw [h.1]
  · rw [h.1]

/-- Witness for C9: the same quote for makerAmount "100" with no takerAmount
and with a non-numeric takerAmount and other addresses. -/
theorem C9_takerAmount_ignored_witness :
    (getOrder (fun b => if b = [1] then .ok wethDai
          else .ok ⟨"0xA", "0xB", "WETH", "DAI", "not a number", "100"⟩)
        ⟨"POST", [1]⟩ .fresh (sampleWorld ⟨1700000000, 0⟩ 42)).1
      = (getOrder (fun b => if b = [1] then .ok wethDai
          else .ok ⟨"0xA", "0xB", "WETH", "DAI", "not a number", "100"⟩)
        ⟨"POST", [2]⟩ .fresh (sampleWorld ⟨1700000000, 0⟩ 42)).1 :=
  (C9_takerAmount_ignored (fun b => if b = [1] then .ok wethDai
      else .ok ⟨"0xA", "0xB", "WETH", "DAI", "not a number", "100"⟩)
    ⟨"POST", [1]⟩ ⟨"POST", [2]⟩ (sampleWorld ⟨1700000000, 0⟩ 42)
    (sampleWorld ⟨1700000000, 0⟩ 42) wethDai
    ⟨"0xA", "0xB", "WETH", "DAI", "not a number", "100"⟩
    rfl rfl rfl rfl (by decide) rfl rfl rfl rfl rfl).1

/-- C10: when makerAmount parses to M with |M| ≤ 2^53 the request is quoted
(status 200) whatever the sign of M, and the quote's takerAmount is the
decimal text of M/2 truncated toward zero: floor(M/2) for M ≥ 0,
ceil(M/2) = floor(M/2) + 1 for odd negative M; its magnitude t satisfies
t ≤ |M| and 0 ≤ |M| − 2·t ≤ 1. -/
theorem C10_truncation (decode : List UInt8 → Except String GetOrderRequest) (r : Request)
    (σ : World) (q : GetOrderRequest) (M : Int)
    (hm : r.Method = MethodPost) (hd : decode r.Body = .ok q)
    (ha : Atoi q.MakerAmount = .ok M)
    (hM : |M| ≤ 2 ^ 53) :
    (getOrder decode r .fresh σ).1.statusCode = 200 ∧
    (getOrder decode r .fresh σ).1.body = jsonObject (makeOrder q M σ.now σ.draw) ∧
    (makeOrder q M σ.now σ.draw).TakerAmount = Itoa (Int.tdiv M 2) ∧
    (0 ≤ M → Int.tdiv M 2 = ⌊(M : ℚ) / 2⌋) ∧
    (M < 0 → M % 2 = 1 →
      Int.tdiv M 2 = ⌈(M : ℚ) / 2⌉ ∧ Int.tdiv M 2 = ⌊(M : ℚ) / 2⌋ + 1) ∧
    |Int.tdiv M 2| ≤ |M| ∧
    0 ≤ |M| - 2 * |Int.tdiv M 2| ∧
    |M| - 2 * |Int.tdiv M 2| ≤ 1 := by
  rw [getOrder_quote decode r .fresh σ q M hm hd ha, fresh_quote_writer]
  have habs : M.natAbs ≤ 2 ^ 53 := by
    rw [abs_le] at hM
    omega
  have ht := tdiv_two M
  refine ⟨rfl, rfl, ?_, ?_, ?_, ?_, ?_, ?_⟩
  · show Itoa (Float64.toInt (Float64.mul (Float64.ofInt M) price)) = _
    rw [toInt_mul_price M habs]
  · intro h0
    rw [floor_div_two, ht, if_pos h0]
  · intro hneg hodd
    rw [ceil_div_two_odd M hodd, floor_div_two, ht, if_neg (by omega)]
    constructor <;> omega
  · rw [ht]
    split <;> rw [abs_le] <;> constructor <;> cases abs_cases M <;> omega
  · rw [ht]
    split <;> cases abs_cases M <;> cases abs_cases (M / 2) <;>
      cases abs_cases (-(-M / 2)) <;> omega
  · rw [ht]
    split <;> cases abs_cases M <;> cases abs_cases (M / 2) <;>
      cases abs_cases (-(-M / 2)) <;> omega

/-- Witness for C10: makerAmount "-3" is quoted with takerAmount "-1". -/
theorem C10_truncation_witness :
    (getOrder (constDecode ⟨"", "", "WETH", "DAI", "", "-3"⟩) ⟨"POST", []⟩ .fresh
        (sampleWorld ⟨1700000000, 0⟩ 42)).1.statusCode = 200 ∧
    (getOrder (constDecode ⟨"", "", "WETH", "DAI", "", "-3"⟩) ⟨"POST", []⟩ .fresh
        (sampleWorld ⟨1700000000, 0⟩ 42)).1.body
      = jsonObject (makeOrder ⟨"", "", "WETH", "DAI", "", "-3"⟩ (-3) ⟨1700000000, 0⟩ 42) ∧
    (makeOrder ⟨"", "", "WETH", "DAI", "", "-3"⟩ (-3) ⟨1700000000, 0⟩ 42).TakerAmount
      = Itoa (Int.tdiv (-3) 2) ∧
    Itoa (Int.tdiv (-3) 2) = "-1" ∧
    Int.tdiv (-3) 2 = ⌈((-3 : Int) : ℚ) / 2⌉ ∧
    Int.tdiv (-3) 2 = ⌊((-3 : Int) : ℚ) / 2⌋ + 1 ∧
    |Int.tdiv (-3) 2| ≤ |(-3 : Int)| := by
  have h := C10_truncation (constDecode ⟨"", "", "WETH", "DAI", "", "-3"⟩) ⟨"POST", []⟩
    (sampleWorld ⟨1700000000, 0⟩ 42) ⟨"", "", "WETH", "DAI", "", "-3"⟩ (-3)
    rfl rfl rfl (by decide)
  have h5 := h.2.2.2.2.1 (by decide) (by decide)
  exact ⟨h.1, h.2.1, h.2.2.1, by decide, h5.1, h5.2, h.2.2.2.2.2.1⟩

end OrderServer
